import Mathlib

/-!
Verification of the error-diffusion dithering engine (`dithering.go`)
against its natural-language specification.

The Go code is shallowly embedded: Go `int16`/`uint8`/`uint16` values are
modelled as `Int`/`Nat` with explicit wrapping where the machine width
matters, Go panics are modelled as `Option.none` (for `findColor`) or as a
`faulted` flag (for `Draw`), and the unbuffered animation channel is
modelled by recording the coordinates at which `Draw` attempts a send.
-/

/-- Reinterpret an integer as a Go `int16`: keep the low 16 bits, signed.
`int16(v)` in Go for any wider integer value `v`. -/
def toInt16 (v : Int) : Int :=
  if v % 65536 < 32768 then v % 65536 else v % 65536 - 65536

/-- Reinterpret an integer as a Go `uint8`: keep the low 8 bits.
`uint8(v)` in Go. -/
def toUInt8 (v : Int) : Int := v % 256

/-- The low-pass filter `int16(float32(v) * 0.75)` from `findColor`
(dithering.go lines 69-71).  For `|v| ≤ 32768` the product `float32(v)*0.75
= 3*v/4` is exact in float32 (|3*v| < 2^17 ≤ 2^24), and the Go
float-to-int conversion truncates toward zero, so the damping is exactly
truncation toward zero of `3*v/4`. -/
def damp75 (v : Int) : Int :=
  if 0 ≤ v then 3 * v / 4 else -(3 * (-v) / 4)

/-- An RGB triple of (mathematical) integer channel values.  Conversions
such as Go's `uint8(...)` are applied explicitly where the code applies
them. -/
structure RGB where
  r : Int
  g : Int
  b : Int
deriving DecidableEq, Repr

/-- `int16(uint8(ch))` applied to each channel: how `findColor` reads the
channels of a palette color or of the source pixel (dithering.go lines
73-75, 83-85, 96-98). -/
def rgb8 (c : RGB) : RGB := ⟨toUInt8 c.r, toUInt8 c.g, toUInt8 c.b⟩

/-- The "working value" of `findColor`: `pixR = int16(uint8(_pixR)) + errR`
with `errR` the damped error (dithering.go lines 73-75).  The addition is
performed on `int16`. -/
def working (err pix : RGB) : RGB :=
  ⟨toInt16 (toUInt8 pix.r + damp75 (toInt16 err.r)),
   toInt16 (toUInt8 pix.g + damp75 (toInt16 err.g)),
   toInt16 (toUInt8 pix.b + damp75 (toInt16 err.b))⟩

/-- Go `abs(x int16) uint16` (dithering.go lines 51-56).  For
`x = -32768`, `-x` wraps back to `-32768` and `uint16(-32768) = 32768`,
which coincides with `Int.natAbs`; on all other `int16` inputs the equality
is immediate, so `natAbs` is the exact semantics on the `int16` range. -/
def goAbs (x : Int) : Nat := x.natAbs

/-- The candidate distance of `findColor` (dithering.go line 86):
`abs(pixR-colR) + abs(pixG-colG) + abs(pixB-colB)` where the subtractions
are `int16` operations and the additions are `uint16` operations (wrapping
modulo 2^16). -/
def dist16 (w c : RGB) : Nat :=
  ((goAbs (toInt16 (w.r - c.r)) + goAbs (toInt16 (w.g - c.g))) % 65536
    + goAbs (toInt16 (w.b - c.b))) % 65536

/-- The scan loop of `findColor` (dithering.go lines 80-92): `i` is the
index of the head of the remaining list, `index`/`minDiff` the mutable
accumulator variables.  The update is guarded by the strict comparison
`distance < minDiff`. -/
def findColorLoop (w : RGB) : List RGB → Nat → Nat → Nat → Nat × Nat
  | [], _, index, minDiff => (index, minDiff)
  | col :: rest, i, index, minDiff =>
    let d := dist16 w (rgb8 col)
    if d < minDiff then findColorLoop w rest (i + 1) i d
    else findColorLoop w rest (i + 1) index minDiff

/-- The four-component per-pixel error record.  The Go type (a `float32`
quadruple implementing `color.Color`) lives in a file of the repository
that is not part of `src/`; its components are modelled as exact rationals.
`findColor` only ever constructs it from `int16` differences plus the
validity marker `1<<16 - 1` (dithering.go lines 101-104). -/
structure PixelError where
  r : ℚ
  g : ℚ
  b : ℚ
  a : ℚ
deriving DecidableEq, Repr

/-- `findColor` (dithering.go lines 61-106).  Inputs are the channel
triples read off the two `color.Color` arguments via `RGBA()`; the code's
`int16(_errR)` / `uint8(_pixR)` reinterpretations are applied inside.  The
final palette access `pal[index]` panics (modelled as `none`) exactly when
the palette is empty, since `index` then keeps its zero value. -/
def findColor (err pix : RGB) (pal : List RGB) : Option (RGB × PixelError × Nat) :=
  let w := working err pix
  let res := findColorLoop w pal 0 0 65535
  match pal.get? res.1 with
  | none => none
  | some col =>
    let c := rgb8 col
    some (c,
      ⟨((w.r - c.r : Int) : ℚ), ((w.g - c.g : Int) : ℚ), ((w.b - c.b : Int) : ℚ), 65535⟩,
      res.2)

/-- Modelled from the spec: the `PixelError` value operations live in a
repository file that is not under `src/` (only its call sites are).  Spec
§3 "PixelError": "an uninitialized cell behaves as the additive identity
(zero error)". -/
def PixelError.zero : PixelError := ⟨0, 0, 0, 0⟩

/-- Modelled from the spec: spec §3 "PixelError - Operations: pairwise
addition". -/
def PixelError.add (p q : PixelError) : PixelError :=
  ⟨p.r + q.r, p.g + q.g, p.b + q.b, p.a + q.a⟩

/-- Modelled from the spec: spec §3 "PixelError - Operations: ... scalar
multiplication (used to apply kernel weights)". -/
def PixelError.mul (p : PixelError) (f : ℚ) : PixelError :=
  ⟨p.r * f, p.g * f, p.b * f, p.a * f⟩

/-- Truncation of a rational toward zero: the Go conversion of a stored
(float) error component back to an integer channel value when a
`PixelError` is read through the `color.Color` interface. -/
def ratTrunc (q : ℚ) : Int := if 0 ≤ q then ⌊q⌋ else ⌈q⌉

/-- Modelled from the spec: the channel triple `findColor` reads off a
buffered `PixelError` via `RGBA()`; the stored components are handed over
as integers (truncated), and `findColor` then reinterprets them as
`int16`. -/
def pixelErrorToRGB (p : PixelError) : RGB :=
  ⟨ratTrunc p.r, ratTrunc p.g, ratTrunc p.b⟩

/-- An integer rectangle `[minX, maxX) x [minY, maxY)`, the shape of
`image.Rectangle` as the code uses it. -/
structure Rect where
  minX : Int
  minY : Int
  maxX : Int
  maxY : Int
deriving DecidableEq, Repr

/-- `rect.Dx()`. -/
def Rect.Dx (r : Rect) : Int := r.maxX - r.minX

/-- `rect.Dy()`. -/
def Rect.Dy (r : Rect) : Int := r.maxY - r.minY

/-- Membership of a coordinate in the half-open rectangle. -/
def Rect.contains (r : Rect) (x y : Int) : Bool :=
  decide (r.minX ≤ x) && decide (x < r.maxX) &&
  decide (r.minY ≤ y) && decide (y < r.maxY)

/-- Modelled from the spec: the `ErrorImage` error-accumulation surface is
implemented in a repository file not under `src/`; spec §3 "ErrorBuffer"
describes it as a rectangle-sized grid addressable also outside the
rectangle.  The grid is modelled as a total function, with the rectangle
kept alongside to implement the range discipline. -/
structure ErrorImage where
  rect : Rect
  data : Int → Int → PixelError

/-- Modelled from the spec: `NewErrorImage` (called in `Draw`,
dithering.go line 126) allocates a fresh buffer for the rectangle; every
cell initially reads as the zero error. -/
def NewErrorImage (r : Rect) : ErrorImage := ⟨r, fun _ _ => PixelError.zero⟩

/-- Modelled from the spec: `PixelErrorAt` (called in `Draw`) — spec §3:
"out-of-range or not-yet-written reads yield the zero error". -/
def ErrorImage.PixelErrorAt (img : ErrorImage) (x y : Int) : PixelError :=
  if img.rect.contains x y then img.data x y else PixelError.zero

/-- Modelled from the spec: `SetPixelError` (called in `Draw`) — spec §3:
"out-of-range writes are silently discarded (no effect on any value ever
read back)". -/
def ErrorImage.SetPixelError (img : ErrorImage) (x y : Int) (e : PixelError) : ErrorImage :=
  if img.rect.contains x y then
    { img with data := fun x' y' => if x' = x ∧ y' = y then e else img.data x' y' }
  else img

/-- A sequence of `SetPixelError` writes applied in order. -/
def applyWrites (img : ErrorImage) : List ((Int × Int) × PixelError) → ErrorImage
  | [] => img
  | (p, e) :: ws => applyWrites (img.SetPixelError p.1 p.2 e) ws

/-- The inner loop of `findShift` (dithering.go lines 110-114): index of
the first strictly positive weight of a row, if any; `j` is the index of
the head of the remaining row. -/
def findShiftRow : List ℚ → Nat → Option Nat
  | [], _ => none
  | v :: rest, j => if 0 < v then some j else findShiftRow rest (j + 1)

/-- `findShift` (dithering.go lines 108-117): scan rows top to bottom and
cells left to right; return `-j + 1` for the column `j` of the first
strictly positive weight, `0` if none exists. -/
def findShift : List (List ℚ) → Int
  | [] => 0
  | row :: rest =>
    match findShiftRow row 0 with
    | some j => -(j : Int) + 1
    | none => findShift rest

/-- The Floyd-Steinberg matrix (dithering.go line 12); the float32
literals `7.0/16.0` etc. are the exact dyadic rationals of the source. -/
def FloydSteinberg : List (List ℚ) :=
  [[0, 0, mkRat 7 16], [mkRat 3 16, mkRat 5 16, mkRat 1 16]]

/-- The Atkinson matrix (dithering.go line 18). -/
def Atkinson : List (List ℚ) :=
  [[0, 0, mkRat 1 8, mkRat 1 8], [mkRat 1 8, mkRat 1 8, mkRat 1 8, 0], [0, mkRat 1 8, 0, 0]]

/-- A destination surface.  `Draw` requires a `*image.Paletted`; the type
assertion of dithering.go line 121 is modelled by the `isPaletted` flag.
`image.Paletted.Set` bounds-checks against the destination's own
rectangle before storing; it maps the color through `Palette.Index`, but
no claim observes the stored value, so the color itself is stored. -/
structure Dst where
  isPaletted : Bool
  rect : Rect
  palette : List RGB
  pix : Int → Int → RGB

/-- `dst.Set(x, y, c)` for a paletted image: write inside the
destination's own bounds, no-op outside. -/
def Dst.set (d : Dst) (x y : Int) (c : RGB) : Dst :=
  if d.rect.contains x y then
    { d with pix := fun x' y' => if x' = x ∧ y' = y then c else d.pix x' y' }
  else d

/-- The `Dither` configuration (dithering.go lines 30-35).  The unbuffered
animation channel is not part of the state; `Draw` reports the attempted
sends in its result. -/
structure Dither where
  Matrix : List (List ℚ)
  nbFrames : Nat

/-- `NewDither` (dithering.go lines 38-40): frame count 1. -/
def NewDither (matrix : List (List ℚ)) : Dither := ⟨matrix, 1⟩

/-- `NewDitherAnimation` (dithering.go lines 46-48). -/
def NewDitherAnimation (matrix : List (List ℚ)) (nbFrames : Nat) : Dither :=
  ⟨matrix, nbFrames⟩

/-- The integers of `[lo, hi)` in increasing order. -/
def intRange (lo hi : Int) : List Int :=
  (List.range (hi - lo).toNat).map (fun k : Nat => lo + (k : Int))

/-- The coordinates visited by the two nested loops of `Draw`
(dithering.go lines 131-132), in visit order: `y` outer, `x` inner. -/
def scanList (r : Rect) : List (Int × Int) :=
  (intRange r.minY r.maxY).flatMap (fun y => (intRange r.minX r.maxX).map (fun x => (x, y)))

/-- The frame-emission condition of dithering.go line 138:
`(y != 0 && x != 0) && ((y*rect.Dy()+x) % pixPerFrame == 0)`.  (Go's `%`
and Lean's `Int.emod` agree on whether the remainder is zero.)  Only
evaluated when `stride ≠ 0`. -/
def emitCond (dy stride x y : Int) : Bool :=
  (decide (y ≠ 0) && decide (x ≠ 0)) && decide ((y * dy + x) % stride = 0)

/-- One cell of the diffusion double loop (dithering.go lines 143-148):
`err.SetPixelError(x+j+shift, y+i, err.PixelErrorAt(x+j+shift, y+i).Add(err.PixelErrorAt(x, y).Mul(v2)))`. -/
def diffuseCell (shift x y : Int) (i j : Nat) (w : ℚ) (b : ErrorImage) : ErrorImage :=
  b.SetPixelError (x + (j : Int) + shift) (y + (i : Int))
    ((b.PixelErrorAt (x + (j : Int) + shift) (y + (i : Int))).add
      ((b.PixelErrorAt x y).mul w))

/-- The full diffusion double loop over the matrix, row index `i`, column
index `j`, re-reading the buffer at every step exactly as the Go loop
does. -/
def diffuse (matrix : List (List ℚ)) (shift x y : Int) (b : ErrorImage) : ErrorImage :=
  matrix.enum.foldl
    (fun b1 row => row.2.enum.foldl
      (fun b2 cell => diffuseCell shift x y row.1 cell.1 cell.2 b2) b1) b

/-- The running state of a `Draw` call: the destination being mutated, the
per-call error buffer, the frame handoffs attempted so far (by
coordinate), and whether the call has panicked. -/
structure DrawSt where
  dst : Dst
  buf : ErrorImage
  frames : List (Int × Int)
  faulted : Bool

/-- The body of the nested pixel loops of `Draw` (dithering.go lines
133-148) at one coordinate.  A Go panic (empty-palette index error inside
`findColor`, or `% 0` when `pixPerFrame` is zero and the emission guard
`y != 0 && x != 0` holds) sets `faulted`; a faulted state is left
untouched, since the panic aborts the remaining iterations. -/
def ditherStep (pal : List RGB) (matrix : List (List ℚ)) (shift dy stride : Int)
    (src : Int → Int → RGB) (st : DrawSt) (p : Int × Int) : DrawSt :=
  if st.faulted then st else
  match findColor (pixelErrorToRGB (st.buf.PixelErrorAt p.1 p.2)) (src p.1 p.2) pal with
  | none => { st with faulted := true }
  | some res =>
    let dst1 := st.dst.set p.1 p.2 res.1
    let buf1 := st.buf.SetPixelError p.1 p.2 res.2.1
    if p.2 ≠ 0 ∧ p.1 ≠ 0 ∧ stride = 0 then
      { dst := dst1, buf := buf1, frames := st.frames, faulted := true }
    else
      { dst := dst1,
        buf := diffuse matrix shift p.1 p.2 buf1,
        frames := if emitCond dy stride p.1 p.2 then st.frames ++ [p] else st.frames,
        faulted := false }

/-- `pixPerFrame := (rect.Dx() * rect.Dy()) / dit.nbFrames` (dithering.go
line 129), Go integer division.  (For the rectangles and frame counts the
claims exercise, both operands are nonnegative, where Go's truncated and
Lean's Euclidean division agree.) -/
def frameStride (rect : Rect) (n : Nat) : Int := rect.Dx * rect.Dy / (n : Int)

/-- The observable outcome of a `Draw` call: final destination, attempted
frame handoffs in order, and whether the call panicked.  The error buffer
is scoped to the call and discarded (spec §3). -/
structure DrawResult where
  dst : Dst
  frames : List (Int × Int)
  faulted : Bool

/-- `Dither.Draw` (dithering.go lines 120-151).  A non-paletted
destination returns immediately (line 122); `nbFrames = 0` would make the
stride computation itself panic with a division by zero. -/
def Dither.Draw (dit : Dither) (dst : Dst) (rect : Rect) (src : Int → Int → RGB) :
    DrawResult :=
  if dst.isPaletted = false then ⟨dst, [], false⟩ else
  if dit.nbFrames = 0 then ⟨dst, [], true⟩ else
  let shift := findShift dit.Matrix
  let stride := frameStride rect dit.nbFrames
  let final := (scanList rect).foldl
    (ditherStep dst.palette dit.Matrix shift rect.Dy stride src)
    ⟨dst, NewErrorImage rect, [], false⟩
  ⟨final.dst, final.frames, final.faulted⟩

/-! ### Specification-side distance functions -/

/-- The full-precision Manhattan distance of spec §4.1 step 3: the sum of
absolute per-channel differences, with no 16-bit wrap. -/
def manhattanTrue (w c : RGB) : Nat :=
  (w.r - c.r).natAbs + (w.g - c.g).natAbs + (w.b - c.b).natAbs

/-- The Manhattan distance reduced modulo 2^16 — what 16-bit unsigned
accumulation actually yields for in-range operands. -/
def manhattanMod (w c : RGB) : Nat := manhattanTrue w c % 65536

/-! ### Arithmetic range lemmas -/

theorem toInt16_of_range (v : Int) (h1 : -32768 ≤ v) (h2 : v < 32768) :
    toInt16 v = v := by
  unfold toInt16
  omega

theorem toInt16_range (v : Int) : -32768 ≤ toInt16 v ∧ toInt16 v < 32768 := by
  unfold toInt16
  omega

theorem toUInt8_range (v : Int) : 0 ≤ toUInt8 v ∧ toUInt8 v < 256 := by
  unfold toUInt8
  omega

theorem toUInt8_of_range (v : Int) (h1 : 0 ≤ v) (h2 : v < 256) : toUInt8 v = v := by
  unfold toUInt8
  omega

theorem damp75_range (v : Int) (h1 : -32768 ≤ v) (h2 : v < 32768) :
    -24576 ≤ damp75 v ∧ damp75 v ≤ 24575 := by
  unfold damp75
  split <;> omega

theorem rgb8_of_range (c : RGB) (hr : 0 ≤ c.r ∧ c.r < 256) (hg : 0 ≤ c.g ∧ c.g < 256)
    (hb : 0 ≤ c.b ∧ c.b < 256) : rgb8 c = c := by
  unfold rgb8
  cases c
  simp only [RGB.mk.injEq]
  exact ⟨toUInt8_of_range _ hr.1 hr.2, toUInt8_of_range _ hg.1 hg.2,
    toUInt8_of_range _ hb.1 hb.2⟩

/-- The `int16` additions building the working value never wrap: each
channel is `uint8 + damped` with the damped error in `[-24576, 24575]`. -/
theorem working_eq (err pix : RGB) :
    working err pix = ⟨toUInt8 pix.r + damp75 (toInt16 err.r),
                       toUInt8 pix.g + damp75 (toInt16 err.g),
                       toUInt8 pix.b + damp75 (toInt16 err.b)⟩ := by
  unfold working
  have hr := damp75_range (toInt16 err.r) (toInt16_range err.r).1 (toInt16_range err.r).2
  have hg := damp75_range (toInt16 err.g) (toInt16_range err.g).1 (toInt16_range err.g).2
  have hb := damp75_range (toInt16 err.b) (toInt16_range err.b).1 (toInt16_range err.b).2
  have pr := toUInt8_range pix.r
  have pg := toUInt8_range pix.g
  have pb := toUInt8_range pix.b
  simp only [RGB.mk.injEq]
  refine ⟨toInt16_of_range _ ?_ ?_, toInt16_of_range _ ?_ ?_, toInt16_of_range _ ?_ ?_⟩
  all_goals omega

theorem working_range (err pix : RGB) :
    (-24576 ≤ (working err pix).r ∧ (working err pix).r ≤ 24830) ∧
    (-24576 ≤ (working err pix).g ∧ (working err pix).g ≤ 24830) ∧
    (-24576 ≤ (working err pix).b ∧ (working err pix).b ≤ 24830) := by
  rw [working_eq]
  dsimp only
  have hr := damp75_range (toInt16 err.r) (toInt16_range err.r).1 (toInt16_range err.r).2
  have hg := damp75_range (toInt16 err.g) (toInt16_range err.g).1 (toInt16_range err.g).2
  have hb := damp75_range (toInt16 err.b) (toInt16_range err.b).1 (toInt16_range err.b).2
  have pr := toUInt8_range pix.r
  have pg := toUInt8_range pix.g
  have pb := toUInt8_range pix.b
  refine ⟨⟨?_, ?_⟩, ⟨?_, ?_⟩, ⟨?_, ?_⟩⟩ <;> omega

/-- For a working value in its reachable range and an 8-bit candidate, the
`int16` channel subtractions never wrap, so the code's distance is exactly
the Manhattan distance modulo 2^16. -/
theorem dist16_eq_manhattanMod (w c : RGB)
    (hw : (-24576 ≤ w.r ∧ w.r ≤ 24830) ∧ (-24576 ≤ w.g ∧ w.g ≤ 24830) ∧
          (-24576 ≤ w.b ∧ w.b ≤ 24830))
    (hc : (0 ≤ c.r ∧ c.r < 256) ∧ (0 ≤ c.g ∧ c.g < 256) ∧ (0 ≤ c.b ∧ c.b < 256)) :
    dist16 w c = manhattanMod w c := by
  unfold dist16 manhattanMod manhattanTrue goAbs
  rw [toInt16_of_range (w.r - c.r) (by omega) (by omega),
    toInt16_of_range (w.g - c.g) (by omega) (by omega),
    toInt16_of_range (w.b - c.b) (by omega) (by omega)]
  omega

theorem dist16_lt (w c : RGB) : dist16 w c < 65536 := by
  unfold dist16
  omega

/-! ### Characterization of the findColor scan loop -/

theorem foldl_min_le_init (l : List Nat) (a : Nat) : l.foldl min a ≤ a := by
  induction l generalizing a with
  | nil => simp
  | cons d rest ih =>
    simp only [List.foldl_cons]
    exact le_trans (ih (min a d)) (min_le_left a d)

theorem foldl_min_le_mem (l : List Nat) (a b : Nat) (hb : b ∈ l) : l.foldl min a ≤ b := by
  induction l generalizing a with
  | nil => simp at hb
  | cons d rest ih =>
    simp only [List.foldl_cons]
    rcases List.mem_cons.mp hb with h | h
    · subst h
      exact le_trans (foldl_min_le_init rest (min a b)) (min_le_right a b)
    · exact ih (min a d) h

theorem foldl_min_cases (l : List Nat) (a : Nat) :
    l.foldl min a = a ∨ l.foldl min a ∈ l := by
  induction l generalizing a with
  | nil => simp
  | cons d rest ih =>
    simp only [List.foldl_cons]
    rcases ih (min a d) with h | h
    · rcases Nat.le_total a d with had | hda
      · left
        rw [h, min_eq_left had]
      · right
        rw [h, min_eq_right hda]
        exact List.mem_cons_self d rest
    · right
      exact List.mem_cons_of_mem d h

/-- The distances the loop scans for palette `pal` and working value `w`. -/
def distsOf (w : RGB) (pal : List RGB) : List Nat :=
  pal.map (fun c => dist16 w (rgb8 c))

/-- Full characterization of the `findColor` scan loop: the final
`minDiff` is the running minimum, and `index` moves to the position of
the first strict improvement — i.e. the first occurrence of the final
minimum — whenever the scan improves on the initial `minDiff` at all. -/
theorem findColorLoop_char (w : RGB) (l : List RGB) :
    ∀ (i idx m : Nat),
      findColorLoop w l i idx m =
        if (distsOf w l).foldl min m < m then
          (i + (distsOf w l).findIdx (fun d => d == (distsOf w l).foldl min m),
           (distsOf w l).foldl min m)
        else (idx, m) := by
  induction l with
  | nil =>
    intro i idx m
    simp [findColorLoop, distsOf]
  | cons c rest ih =>
    intro i idx m
    have hds : distsOf w (c :: rest) = dist16 w (rgb8 c) :: distsOf w rest := by
      simp [distsOf]
    rw [hds]
    simp only [findColorLoop, List.foldl_cons]
    by_cases hlt : dist16 w (rgb8 c) < m
    · rw [if_pos hlt, ih (i + 1) i (dist16 w (rgb8 c)),
        min_eq_right (le_of_lt hlt)]
      by_cases h2 : (distsOf w rest).foldl min (dist16 w (rgb8 c)) < dist16 w (rgb8 c)
      · rw [if_pos h2, if_pos (lt_trans h2 hlt)]
        have hne : (dist16 w (rgb8 c) ==
            (distsOf w rest).foldl min (dist16 w (rgb8 c))) = false := by
          rw [beq_eq_false_iff_ne]
          omega
        rw [List.findIdx_cons, hne]
        simp only [cond_false, Prod.mk.injEq]
        exact ⟨by omega, trivial⟩
      · rw [if_neg h2]
        have hmin : (distsOf w rest).foldl min (dist16 w (rgb8 c)) = dist16 w (rgb8 c) := by
          have := foldl_min_le_init (distsOf w rest) (dist16 w (rgb8 c))
          omega
        rw [hmin, if_pos hlt, List.findIdx_cons]
        simp
    · rw [if_neg hlt, ih (i + 1) idx m,
        min_eq_left (by omega : m ≤ dist16 w (rgb8 c))]
      by_cases h2 : (distsOf w rest).foldl min m < m
      · rw [if_pos h2, if_pos h2]
        have hne : (dist16 w (rgb8 c) == (distsOf w rest).foldl min m) = false := by
          rw [beq_eq_false_iff_ne]
          omega
        rw [List.findIdx_cons, hne]
        simp only [cond_false, Prod.mk.injEq]
        exact ⟨by omega, trivial⟩
      · rw [if_neg h2, if_neg h2]

/-- For a nonempty palette, the loop's initial `minDiff = 65535` is an
upper bound of every distance, so the final `minDiff` is the list minimum
and the final `index` is the first position achieving it. -/
theorem findColorLoop_min (w : RGB) (c0 : RGB) (rest : List RGB) :
    (distsOf w (c0 :: rest)).min? = some (findColorLoop w (c0 :: rest) 0 0 65535).2 ∧
    (findColorLoop w (c0 :: rest) 0 0 65535).1 =
      (distsOf w (c0 :: rest)).findIdx
        (fun d => d == (findColorLoop w (c0 :: rest) 0 0 65535).2) := by
  have hchar := findColorLoop_char w (c0 :: rest) 0 0 65535
  have hds : distsOf w (c0 :: rest) = dist16 w (rgb8 c0) :: distsOf w rest := by
    simp [distsOf]
  have hbound : dist16 w (rgb8 c0) ≤ 65535 := by
    have := dist16_lt w (rgb8 c0)
    omega
  have hfold : (distsOf w (c0 :: rest)).foldl min 65535
      = (distsOf w rest).foldl min (dist16 w (rgb8 c0)) := by
    rw [hds, List.foldl_cons, min_eq_right hbound]
  have hminEq : (distsOf w (c0 :: rest)).min?
      = some ((distsOf w (c0 :: rest)).foldl min 65535) := by
    rw [hfold, hds]
    simp [List.min?]
  rcases lt_or_ge ((distsOf w (c0 :: rest)).foldl min 65535) 65535 with h | h
  · rw [hchar, if_pos h]
    refine ⟨hminEq, ?_⟩
    simp
  · have hfe : (distsOf w (c0 :: rest)).foldl min 65535 = 65535 :=
      le_antisymm (foldl_min_le_init _ _) h
    rw [hchar, if_neg (by omega)]
    constructor
    · rw [hminEq, hfe]
    · have hd0 : dist16 w (rgb8 c0) = 65535 := by
        have h1 : (distsOf w (c0 :: rest)).foldl min 65535 ≤ dist16 w (rgb8 c0) :=
          foldl_min_le_mem _ _ _ (by rw [hds]; exact List.mem_cons_self _ _)
        have h2 := dist16_lt w (rgb8 c0)
        omega
      rw [hds, List.findIdx_cons]
      have : (dist16 w (rgb8 c0) == 65535) = true := by
        simp [hd0]
      rw [this]
      rfl

/-- The wrapped distances equal the spec-side Manhattan-mod-2^16
distances: the working value always lies in its reachable range and
candidates are reduced to 8 bits before distancing. -/
theorem distsOf_eq_manhattanMod (err pix : RGB) (pal : List RGB) :
    distsOf (working err pix) pal
      = pal.map (fun c => manhattanMod (working err pix) (rgb8 c)) := by
  unfold distsOf
  apply List.map_congr_left
  intro c _
  exact dist16_eq_manhattanMod _ _
    ⟨⟨(working_range err pix).1.1, (working_range err pix).1.2⟩,
     ⟨(working_range err pix).2.1.1, (working_range err pix).2.1.2⟩,
     ⟨(working_range err pix).2.2.1, (working_range err pix).2.2.2⟩⟩
    ⟨toUInt8_range c.r, toUInt8_range c.g, toUInt8_range c.b⟩

/-- Structure of a successful `findColor` call: for a nonempty palette it
returns the candidate at the first index achieving the minimum wrapped
distance, the signed residual against that candidate, and that minimum. -/
theorem findColor_eq_of_ne_nil (err pix : RGB) (pal : List RGB) (h : pal ≠ []) :
    ∃ d col,
      (distsOf (working err pix) pal).min? = some d ∧
      pal.get? ((distsOf (working err pix) pal).findIdx (fun x => x == d)) = some col ∧
      findColor err pix pal = some (rgb8 col,
        ⟨(((working err pix).r - (rgb8 col).r : Int) : ℚ),
         (((working err pix).g - (rgb8 col).g : Int) : ℚ),
         (((working err pix).b - (rgb8 col).b : Int) : ℚ), 65535⟩, d) := by
  obtain ⟨c0, rest, rfl⟩ : ∃ c0 rest, pal = c0 :: rest := by
    cases pal with
    | nil => exact absurd rfl h
    | cons a t => exact ⟨a, t, rfl⟩
  obtain ⟨hmin, hidx⟩ := findColorLoop_min (working err pix) c0 rest
  set K := findColorLoop (working err pix) (c0 :: rest) 0 0 65535 with hK
  have hdmem : K.2 ∈ distsOf (working err pix) (c0 :: rest) :=
    List.min?_mem (fun a b => min_choice a b) hmin
  have hlt : (distsOf (working err pix) (c0 :: rest)).findIdx (fun x => x == K.2)
      < (distsOf (working err pix) (c0 :: rest)).length := by
    rw [List.findIdx_lt_length]
    exact ⟨_, hdmem, by simp⟩
  have hlen : (distsOf (working err pix) (c0 :: rest)).length = (c0 :: rest).length := by
    simp [distsOf]
  have hlt2 : (distsOf (working err pix) (c0 :: rest)).findIdx (fun x => x == K.2)
      < (c0 :: rest).length := by omega
  refine ⟨K.2, (c0 :: rest).get ⟨(distsOf (working err pix) (c0 :: rest)).findIdx
    (fun x => x == K.2), hlt2⟩, hmin, List.get?_eq_get hlt2, ?_⟩
  simp only [findColor]
  rw [← hK, hidx, List.get?_eq_get hlt2]

/-! ### ErrorImage lemmas -/

theorem SetPixelError_rect (img : ErrorImage) (x y : Int) (e : PixelError) :
    (img.SetPixelError x y e).rect = img.rect := by
  unfold ErrorImage.SetPixelError
  split <;> rfl

theorem SetPixelError_outside (img : ErrorImage) (x y : Int) (e : PixelError)
    (h : img.rect.contains x y = false) : img.SetPixelError x y e = img := by
  unfold ErrorImage.SetPixelError
  rw [h]
  simp

theorem PixelErrorAt_SetPixelError_ne (img : ErrorImage) (a b x y : Int) (e : PixelError)
    (h : (a, b) ≠ (x, y)) :
    (img.SetPixelError a b e).PixelErrorAt x y = img.PixelErrorAt x y := by
  unfold ErrorImage.SetPixelError ErrorImage.PixelErrorAt
  have hne : ¬(x = a ∧ y = b) := by
    intro ⟨h1, h2⟩
    exact h (by rw [h1, h2])
  split
  · simp only
    rw [if_neg hne]
  · rfl

theorem applyWrites_PixelErrorAt_ne (ws : List ((Int × Int) × PixelError))
    (img : ErrorImage) (x y : Int) (h : ∀ w ∈ ws, w.1 ≠ (x, y)) :
    (applyWrites img ws).PixelErrorAt x y = img.PixelErrorAt x y := by
  induction ws generalizing img with
  | nil => rfl
  | cons w rest ih =>
    show (applyWrites (img.SetPixelError w.1.1 w.1.2 w.2) rest).PixelErrorAt x y = _
    rw [ih _ (fun u hu => h u (List.mem_cons_of_mem w hu))]
    exact PixelErrorAt_SetPixelError_ne img w.1.1 w.1.2 x y w.2
      (by simpa using h w (List.mem_cons_self w rest))

theorem NewErrorImage_PixelErrorAt (r : Rect) (x y : Int) :
    (NewErrorImage r).PixelErrorAt x y = PixelError.zero := by
  unfold NewErrorImage ErrorImage.PixelErrorAt
  split <;> rfl

/-! ### findShift lemmas -/

theorem findShiftRow_none (l : List ℚ) (hall : ∀ v ∈ l, v ≤ 0) :
    ∀ j, findShiftRow l j = none := by
  induction l with
  | nil => intro j; rfl
  | cons v rest ih =>
    intro j
    unfold findShiftRow
    rw [if_neg (by
      have := hall v (List.mem_cons_self v rest)
      exact not_lt.mpr this)]
    exact ih (fun u hu => hall u (List.mem_cons_of_mem v hu)) (j + 1)

theorem findShiftRow_some (l : List ℚ) (c : Nat) (v : ℚ)
    (hget : l.get? c = some v) (hpos : 0 < v)
    (hbefore : ((l.take c).all fun u => decide (u ≤ 0)) = true) :
    ∀ j, findShiftRow l j = some (j + c) := by
  induction l generalizing c with
  | nil => simp at hget
  | cons u rest ih =>
    intro j
    cases c with
    | zero =>
      simp only [List.get?] at hget
      injection hget with hget
      subst hget
      unfold findShiftRow
      rw [if_pos hpos]
      simp
    | succ c' =>
      simp only [List.get?] at hget
      have hu : u ≤ 0 := by
        have := hbefore
        simp only [List.take, List.all_cons, Bool.and_eq_true, decide_eq_true_eq] at this
        exact this.1
      unfold findShiftRow
      rw [if_neg (not_lt.mpr hu)]
      have hb' : ((rest.take c').all fun x => decide (x ≤ 0)) = true := by
        have := hbefore
        simp only [List.take, List.all_cons, Bool.and_eq_true] at this
        exact this.2
      have := ih c' hget hb' (j + 1)
      rw [this]
      congr 1
      omega

theorem findShift_none (m : List (List ℚ))
    (hall : (m.all fun row => row.all fun u => decide (u ≤ 0)) = true) :
    findShift m = 0 := by
  induction m with
  | nil => rfl
  | cons row rest ih =>
    simp only [List.all_cons, Bool.and_eq_true] at hall
    unfold findShift
    rw [findShiftRow_none row (by
      intro v hv
      have := List.all_eq_true.mp hall.1 v hv
      simpa using this) 0]
    exact ih hall.2

theorem findShift_some (m : List (List ℚ)) (r c : Nat) (row : List ℚ) (v : ℚ)
    (hrow : m.get? r = some row) (hget : row.get? c = some v) (hpos : 0 < v)
    (hbefore : ((row.take c).all fun u => decide (u ≤ 0)) = true)
    (habove : ((m.take r).all fun rw => rw.all fun u => decide (u ≤ 0)) = true) :
    findShift m = -(c : Int) + 1 := by
  induction m generalizing r with
  | nil => simp at hrow
  | cons row0 rest ih =>
    cases r with
    | zero =>
      simp only [List.get?] at hrow
      injection hrow with hrow
      subst hrow
      unfold findShift
      rw [findShiftRow_some row0 c v hget hpos hbefore 0]
      simp
    | succ r' =>
      simp only [List.get?] at hrow
      have h0 : ∀ u ∈ row0, u ≤ 0 := by
        intro u hu
        have := habove
        simp only [List.take, List.all_cons, Bool.and_eq_true] at this
        have := List.all_eq_true.mp this.1 u hu
        simpa using this
      unfold findShift
      rw [findShiftRow_none row0 h0 0]
      have ha' : ((rest.take r').all fun rw => rw.all fun u => decide (u ≤ 0)) = true := by
        have := habove
        simp only [List.take, List.all_cons, Bool.and_eq_true] at this
        exact this.2
      exact ih r' hrow ha'

/-! ### Draw-loop lemmas -/

theorem findColor_isSome (err pix : RGB) (pal : List RGB) (h : pal ≠ []) :
    ∃ v, findColor err pix pal = some v := by
  obtain ⟨d, col, _, _, hfc⟩ := findColor_eq_of_ne_nil err pix pal h
  exact ⟨_, hfc⟩

theorem mem_intRange (lo hi x : Int) : x ∈ intRange lo hi ↔ lo ≤ x ∧ x < hi := by
  unfold intRange
  simp only [List.mem_map, List.mem_range]
  constructor
  · rintro ⟨k, hk, rfl⟩
    omega
  · intro ⟨h1, h2⟩
    exact ⟨(x - lo).toNat, by omega, by omega⟩

theorem mem_scanList (r : Rect) (p : Int × Int) :
    p ∈ scanList r ↔ r.minX ≤ p.1 ∧ p.1 < r.maxX ∧ r.minY ≤ p.2 ∧ p.2 < r.maxY := by
  unfold scanList
  simp only [List.mem_flatMap, List.mem_map, mem_intRange]
  constructor
  · rintro ⟨y, hy, x, hx, rfl⟩
    exact ⟨hx.1, hx.2, hy.1, hy.2⟩
  · intro ⟨h1, h2, h3, h4⟩
    exact ⟨p.2, ⟨h3, h4⟩, p.1, ⟨h1, h2⟩, rfl⟩

theorem ditherStep_faulted (pal : List RGB) (matrix : List (List ℚ)) (shift dy stride : Int)
    (src : Int → Int → RGB) (st : DrawSt) (p : Int × Int) (h : st.faulted = true) :
    ditherStep pal matrix shift dy stride src st p = st := by
  unfold ditherStep
  rw [h]
  simp

theorem foldl_ditherStep_faulted (pal : List RGB) (matrix : List (List ℚ))
    (shift dy stride : Int) (src : Int → Int → RGB) (L : List (Int × Int)) (st : DrawSt)
    (h : st.faulted = true) :
    L.foldl (ditherStep pal matrix shift dy stride src) st = st := by
  induction L with
  | nil => rfl
  | cons p rest ih =>
    rw [List.foldl_cons, ditherStep_faulted pal matrix shift dy stride src st p h, ih]

/-- Every branch of a step that appends nothing to `frames` either keeps
the state or produces a state with the same `frames`; a frame is appended
only when `emitCond` holds at the scanned coordinate. -/
theorem foldl_ditherStep_no_emit (pal : List RGB) (matrix : List (List ℚ))
    (shift dy stride : Int) (src : Int → Int → RGB) (L : List (Int × Int)) (st : DrawSt)
    (h : ∀ p ∈ L, emitCond dy stride p.1 p.2 = false) :
    (L.foldl (ditherStep pal matrix shift dy stride src) st).frames = st.frames := by
  induction L generalizing st with
  | nil => rfl
  | cons p rest ih =>
    rw [List.foldl_cons]
    have hrest : ∀ q ∈ rest, emitCond dy stride q.1 q.2 = false :=
      fun q hq => h q (List.mem_cons_of_mem p hq)
    rw [ih _ hrest]
    unfold ditherStep
    by_cases hf : st.faulted
    · rw [if_pos hf]
    · rw [if_neg hf]
      cases hfc : findColor (pixelErrorToRGB (st.buf.PixelErrorAt p.1 p.2)) (src p.1 p.2) pal with
      | none => rfl
      | some res =>
        simp only
        split
        · rfl
        · simp only [h p (List.mem_cons_self p rest), if_false, Bool.false_eq_true]

/-- With a nonempty palette and a nonzero stride a `Draw` scan completes
without fault and its frame handoffs are exactly the scanned coordinates
satisfying the emission condition, in scan order. -/
theorem foldl_ditherStep_filter (pal : List RGB) (matrix : List (List ℚ))
    (shift dy stride : Int) (src : Int → Int → RGB) (L : List (Int × Int)) (st : DrawSt)
    (hpal : pal ≠ []) (hstride : stride ≠ 0) (hf : st.faulted = false) :
    (L.foldl (ditherStep pal matrix shift dy stride src) st).frames
        = st.frames ++ L.filter (fun p => emitCond dy stride p.1 p.2) ∧
    (L.foldl (ditherStep pal matrix shift dy stride src) st).faulted = false := by
  induction L generalizing st with
  | nil => exact ⟨by simp, hf⟩
  | cons p rest ih =>
    rw [List.foldl_cons]
    obtain ⟨v, hv⟩ := findColor_isSome
      (pixelErrorToRGB (st.buf.PixelErrorAt p.1 p.2)) (src p.1 p.2) pal hpal
    have hstep : ditherStep pal matrix shift dy stride src st p =
        { dst := st.dst.set p.1 p.2 v.1,
          buf := diffuse matrix shift p.1 p.2 (st.buf.SetPixelError p.1 p.2 v.2.1),
          frames := if emitCond dy stride p.1 p.2 then st.frames ++ [p] else st.frames,
          faulted := false } := by
      unfold ditherStep
      rw [if_neg (by rw [hf]; exact Bool.false_ne_true), hv]
      simp only
      rw [if_neg (by
        intro ⟨h1, h2, h3⟩
        exact hstride h3)]
    rw [hstep]
    obtain ⟨ihf, ihfault⟩ := ih
      { dst := st.dst.set p.1 p.2 v.1,
        buf := diffuse matrix shift p.1 p.2 (st.buf.SetPixelError p.1 p.2 v.2.1),
        frames := if emitCond dy stride p.1 p.2 then st.frames ++ [p] else st.frames,
        faulted := false } rfl
    refine ⟨?_, ihfault⟩
    rw [ihf]
    simp only [List.filter_cons]
    by_cases he : emitCond dy stride p.1 p.2
    · rw [if_pos he, if_pos he]
      simp
    · rw [if_neg he, if_neg (by simpa using he)]

/-- With a nonempty palette and stride zero, a scan faults exactly when it
reaches a coordinate with both components nonzero (`y*dy + x % 0` is a Go
division-by-zero panic), and no frame is ever handed off. -/
theorem foldl_ditherStep_stride_zero (pal : List RGB) (matrix : List (List ℚ))
    (shift dy : Int) (src : Int → Int → RGB) (L : List (Int × Int)) (st : DrawSt)
    (hpal : pal ≠ []) (hf : st.faulted = false) :
    (L.foldl (ditherStep pal matrix shift dy 0 src) st).frames = st.frames ∧
    ((L.foldl (ditherStep pal matrix shift dy 0 src) st).faulted = true ↔
      ∃ p ∈ L, p.2 ≠ 0 ∧ p.1 ≠ 0) := by
  induction L generalizing st with
  | nil =>
    refine ⟨rfl, ?_⟩
    simp [hf]
  | cons p rest ih =>
    rw [List.foldl_cons]
    obtain ⟨v, hv⟩ := findColor_isSome
      (pixelErrorToRGB (st.buf.PixelErrorAt p.1 p.2)) (src p.1 p.2) pal hpal
    by_cases hint : p.2 ≠ 0 ∧ p.1 ≠ 0
    · have hstep : ditherStep pal matrix shift dy 0 src st p =
          { dst := st.dst.set p.1 p.2 v.1,
            buf := st.buf.SetPixelError p.1 p.2 v.2.1,
            frames := st.frames, faulted := true } := by
        unfold ditherStep
        rw [if_neg (by rw [hf]; exact Bool.false_ne_true), hv]
        simp only
        rw [if_pos (by exact ⟨hint.1, hint.2, by trivial⟩)]
      rw [hstep, foldl_ditherStep_faulted _ _ _ _ _ _ _ _ rfl]
      refine ⟨rfl, ?_⟩
      simp only [true_iff]
      exact ⟨p, List.mem_cons_self p rest, hint⟩
    · have hemit : emitCond dy 0 p.1 p.2 = false := by
        unfold emitCond
        rcases Decidable.not_and_iff_or_not.mp hint with h | h
        · simp [h]
        · simp [h]
      have hstep : ditherStep pal matrix shift dy 0 src st p =
          { dst := st.dst.set p.1 p.2 v.1,
            buf := diffuse matrix shift p.1 p.2 (st.buf.SetPixelError p.1 p.2 v.2.1),
            frames := st.frames, faulted := false } := by
        unfold ditherStep
        rw [if_neg (by rw [hf]; exact Bool.false_ne_true), hv]
        simp only
        rw [if_neg (fun hc => hint ⟨hc.1, hc.2.1⟩), hemit]
        simp
      rw [hstep]
      obtain ⟨ihf, ihfault⟩ := ih
        { dst := st.dst.set p.1 p.2 v.1,
          buf := diffuse matrix shift p.1 p.2 (st.buf.SetPixelError p.1 p.2 v.2.1),
          frames := st.frames, faulted := false } rfl
      refine ⟨ihf, ?_⟩
      rw [ihfault]
      constructor
      · rintro ⟨q, hq, hq2⟩
        exact ⟨q, List.mem_cons_of_mem p hq, hq2⟩
      · rintro ⟨q, hq, hq2⟩
        rcases List.mem_cons.mp hq with rfl | hq
        · exact absurd hq2 hint
        · exact ⟨q, hq, hq2⟩

/-- A pixel of the destination is only written at its own scan
coordinate: folding over coordinates all different from `q` leaves the
destination's value at `q` unchanged. -/
theorem foldl_ditherStep_pix_ne (pal : List RGB) (matrix : List (List ℚ))
    (shift dy stride : Int) (src : Int → Int → RGB) (L : List (Int × Int)) (st : DrawSt)
    (q : Int × Int) (h : ∀ p ∈ L, p ≠ q) :
    (L.foldl (ditherStep pal matrix shift dy stride src) st).dst.pix q.1 q.2
      = st.dst.pix q.1 q.2 := by
  induction L generalizing st with
  | nil => rfl
  | cons p rest ih =>
    rw [List.foldl_cons, ih _ (fun u hu => h u (List.mem_cons_of_mem p hu))]
    have hpq : p ≠ q := h p (List.mem_cons_self p rest)
    have hset : ∀ c, (st.dst.set p.1 p.2 c).pix q.1 q.2 = st.dst.pix q.1 q.2 := by
      intro c
      unfold Dst.set
      split
      · simp only
        rw [if_neg (by
          intro ⟨h1, h2⟩
          exact hpq (by
            cases p
            cases q
            simp_all))]
      · rfl
    unfold ditherStep
    by_cases hfa : st.faulted
    · rw [if_pos hfa]
    · rw [if_neg hfa]
      cases hfc : findColor (pixelErrorToRGB (st.buf.PixelErrorAt p.1 p.2)) (src p.1 p.2) pal with
      | none => rfl
      | some res =>
        simp only
        split
        · exact hset res.1
        · split <;> exact hset res.1

/-- In an origin-anchored `W x H` scan, no interior coordinate (both
components nonzero) satisfies `W*H ∣ y*H + x`: writing `y*H + x = W*H*k`
forces `H ∣ x`, hence `H ≤ x < W`, and then `y*H + x < W*H ≤ W*H*k`, a
contradiction. -/
theorem no_interior_multiple (W H x y : Int) (hx1 : 1 ≤ x) (hxW : x < W)
    (hy1 : 1 ≤ y) (hyH : y < H) : ¬ (W * H ∣ y * H + x) := by
  rintro ⟨k, hk⟩
  have hH2 : 2 ≤ H := by omega
  have hW2 : 2 ≤ W := by omega
  have hWH : 0 < W * H := mul_pos (by omega) (by omega)
  have hyHpos : 1 * 1 ≤ y * H := mul_le_mul hy1 (by omega) (by omega) (by omega)
  have hpos : 0 < y * H + x := by omega
  have hk1 : 1 ≤ k := by
    by_contra hk0
    push_neg at hk0
    have hneg : W * H * k ≤ 0 :=
      mul_nonpos_of_nonneg_of_nonpos (le_of_lt hWH) (by omega)
    linarith
  have hdvdx : H ∣ x := ⟨W * k - y, by linear_combination hk⟩
  have hxH : H ≤ x := Int.le_of_dvd (by omega) hdvdx
  have hkk : W * H * 1 ≤ W * H * k := mul_le_mul_of_nonneg_left hk1 (le_of_lt hWH)
  have hyb : y * H ≤ (H - 1) * H := mul_le_mul_of_nonneg_right (by omega) (by omega)
  have e2 : (H - 1) * (H - W) ≤ (H - 1) * (-1) :=
    mul_le_mul_of_nonneg_left (by omega) (by omega)
  nlinarith [hk, hkk, hyb, e2]

/-- The frame-emission condition is identically false over an
origin-anchored rectangle when the stride is the full pixel count. -/
theorem emitCond_origin (W H x y : Int) (hx : 0 ≤ x) (hxW : x < W)
    (hy : 0 ≤ y) (hyH : y < H) : emitCond H (W * H) x y = false := by
  unfold emitCond
  by_cases hx0 : x = 0
  · simp [hx0]
  by_cases hy0 : y = 0
  · simp [hy0]
  have hnd : ¬ ((y * H + x) % (W * H) = 0) := fun hc =>
    no_interior_multiple W H x y (by omega) hxW (by omega) hyH
      (Int.dvd_of_emod_eq_zero hc)
  simp [hnd]

/-- Unfolding `Draw` on a paletted destination with a nonzero frame count:
the observable outcome is the projection of the scan fold. -/
theorem Draw_eq_fold (dit : Dither) (dst : Dst) (rect : Rect) (src : Int → Int → RGB)
    (h1 : dst.isPaletted = true) (h2 : dit.nbFrames ≠ 0) :
    Dither.Draw dit dst rect src =
      ⟨((scanList rect).foldl
          (ditherStep dst.palette dit.Matrix (findShift dit.Matrix) rect.Dy
            (frameStride rect dit.nbFrames) src)
          ⟨dst, NewErrorImage rect, [], false⟩).dst,
        ((scanList rect).foldl
          (ditherStep dst.palette dit.Matrix (findShift dit.Matrix) rect.Dy
            (frameStride rect dit.nbFrames) src)
          ⟨dst, NewErrorImage rect, [], false⟩).frames,
        ((scanList rect).foldl
          (ditherStep dst.palette dit.Matrix (findShift dit.Matrix) rect.Dy
            (frameStride rect dit.nbFrames) src)
          ⟨dst, NewErrorImage rect, [], false⟩).faulted⟩ := by
  unfold Dither.Draw
  rw [h1]
  simp [h2]

/-- Unfolding `Draw` on a non-paletted destination: the type-assertion
guard of dithering.go line 121 returns immediately. -/
theorem Draw_non_paletted (dit : Dither) (dst : Dst) (rect : Rect) (src : Int → Int → RGB)
    (h : dst.isPaletted = false) : Dither.Draw dit dst rect src = ⟨dst, [], false⟩ := by
  unfold Dither.Draw
  rw [h]
  simp

/-! ### Claim theorems -/

/-- C1 counterexample: the original claim is false.  With accumulated
error `(-28934,-28934,-28934)` and source pixel black, the damped working
value is `(-21700,-21700,-21700)`; the full-precision Manhattan distances
to the palette `[black, white]` are `[65100, 65865]`, whose minimum 65100
is achieved first by black (index 0) — but the 16-bit accumulation wraps
white's distance to `65865 - 65536 = 329`, so `findColor` returns white
with distance 329, not the first minimum-Manhattan-distance candidate and
not the minimum Manhattan distance. -/
theorem C1_counterexample :
    (∃ e, findColor ⟨-28934, -28934, -28934⟩ ⟨0, 0, 0⟩ [⟨0, 0, 0⟩, ⟨255, 255, 255⟩]
        = some (⟨255, 255, 255⟩, e, 329)) ∧
    (([⟨0, 0, 0⟩, ⟨255, 255, 255⟩] : List RGB).map fun c =>
        manhattanTrue (working ⟨-28934, -28934, -28934⟩ ⟨0, 0, 0⟩) (rgb8 c))
      = [65100, 65865] ∧
    (⟨255, 255, 255⟩ : RGB) ≠ ⟨0, 0, 0⟩ ∧ (329 : Nat) ≠ 65100 :=
  ⟨⟨⟨-21955, -21955, -21955, 65535⟩, by decide⟩, by decide, by decide, by decide⟩

/-- C1 (amended): for every nonempty palette, accumulated error and
source pixel, `findColor` computes for each candidate the Manhattan
distance between the error-adjusted working value and the candidate's
8-bit channels **reduced modulo 2^16** (the accumulation is 16-bit
unsigned), returns the first candidate achieving the minimum of these
wrapped distances, and returns that minimum as the distance. -/
theorem findColor_first_min_mod_dist (err pix : RGB) (pal : List RGB) (h : pal ≠ []) :
    ∃ d col e,
      (pal.map fun c => manhattanMod (working err pix) (rgb8 c)).min? = some d ∧
      pal.get? ((pal.map fun c => manhattanMod (working err pix) (rgb8 c)).findIdx
        (fun u => u == d)) = some col ∧
      findColor err pix pal = some (rgb8 col, e, d) := by
  obtain ⟨d, col, h1, h2, h3⟩ := findColor_eq_of_ne_nil err pix pal h
  rw [distsOf_eq_manhattanMod] at h1 h2
  exact ⟨d, col, _, h1, h2, h3⟩

/-- C1 witness: the amended claim at the counterexample input. -/
theorem findColor_first_min_mod_dist_witness :
    ∃ d col e,
      (([⟨0, 0, 0⟩, ⟨255, 255, 255⟩] : List RGB).map fun c =>
        manhattanMod (working ⟨-28934, -28934, -28934⟩ ⟨0, 0, 0⟩) (rgb8 c)).min? = some d ∧
      ([⟨0, 0, 0⟩, ⟨255, 255, 255⟩] : List RGB).get?
        ((([⟨0, 0, 0⟩, ⟨255, 255, 255⟩] : List RGB).map fun c =>
          manhattanMod (working ⟨-28934, -28934, -28934⟩ ⟨0, 0, 0⟩) (rgb8 c)).findIdx
          (fun u => u == d)) = some col ∧
      findColor ⟨-28934, -28934, -28934⟩ ⟨0, 0, 0⟩ [⟨0, 0, 0⟩, ⟨255, 255, 255⟩]
        = some (rgb8 col, e, d) :=
  findColor_first_min_mod_dist ⟨-28934, -28934, -28934⟩ ⟨0, 0, 0⟩
    [⟨0, 0, 0⟩, ⟨255, 255, 255⟩] (by decide)

/-- C2 counterexample: with accumulated error 2 per channel, source pixel
(10,10,10) and the single-entry palette [black], the code's residual is 11
per channel (the damping `int16(float32(2) * 0.75)` truncates 1.5 to 1),
whereas `source + 0.75*error - entry = 11.5`: the claimed identity with an
exact multiplication by 0.75 fails. -/
theorem C2_counterexample :
    findColor ⟨2, 2, 2⟩ ⟨10, 10, 10⟩ [⟨0, 0, 0⟩]
      = some (⟨0, 0, 0⟩, ⟨11, 11, 11, 65535⟩, 33) ∧
    ((11 : ℚ) ≠ 10 + (3 / 4) * 2 - 0) :=
  ⟨by decide, by norm_num⟩

/-- C2 (amended): for every source pixel, accumulated error and
single-entry palette with 8-bit channels, `findColor` returns exactly that
entry, and the residual per channel is
`(sourceChannel + dampedError) - entryChannel` where `dampedError` is the
`int16` **truncation toward zero** of 0.75 times the error channel. -/
theorem findColor_singleton_palette (err pix c : RGB)
    (hr : 0 ≤ c.r ∧ c.r < 256) (hg : 0 ≤ c.g ∧ c.g < 256) (hb : 0 ≤ c.b ∧ c.b < 256) :
    findColor err pix [c] = some (c,
      ⟨((toUInt8 pix.r + damp75 (toInt16 err.r) - c.r : Int) : ℚ),
       ((toUInt8 pix.g + damp75 (toInt16 err.g) - c.g : Int) : ℚ),
       ((toUInt8 pix.b + damp75 (toInt16 err.b) - c.b : Int) : ℚ),
       65535⟩,
      dist16 (working err pix) c) := by
  have hc8 : rgb8 c = c := rgb8_of_range c hr hg hb
  have hw := working_eq err pix
  by_cases hd : dist16 (working err pix) (rgb8 c) < 65535
  · have hloop : findColorLoop (working err pix) [c] 0 0 65535
        = (0, dist16 (working err pix) (rgb8 c)) := by
      unfold findColorLoop
      rw [if_pos hd]
      rfl
    simp only [findColor, hloop]
    simp only [List.get?]
    rw [hw]
    simp [hc8]
  · have hd' : dist16 (working err pix) (rgb8 c) = 65535 := by
      have := dist16_lt (working err pix) (rgb8 c)
      omega
    have hloop : findColorLoop (working err pix) [c] 0 0 65535 = (0, 65535) := by
      unfold findColorLoop
      rw [if_neg hd]
      rfl
    simp only [findColor, hloop]
    simp only [List.get?]
    rw [hw] at hd' ⊢
    rw [← hd']
    simp [hc8]

/-- C2 witness: the amended claim at a concrete input. -/
theorem findColor_singleton_palette_witness :
    findColor ⟨2, 2, 2⟩ ⟨10, 10, 10⟩ [⟨0, 0, 0⟩]
      = some (⟨0, 0, 0⟩,
        ⟨((toUInt8 10 + damp75 (toInt16 2) - 0 : Int) : ℚ),
         ((toUInt8 10 + damp75 (toInt16 2) - 0 : Int) : ℚ),
         ((toUInt8 10 + damp75 (toInt16 2) - 0 : Int) : ℚ),
         65535⟩,
        dist16 (working ⟨2, 2, 2⟩ ⟨10, 10, 10⟩) ⟨0, 0, 0⟩) :=
  findColor_singleton_palette ⟨2, 2, 2⟩ ⟨10, 10, 10⟩ ⟨0, 0, 0⟩
    (by decide) (by decide) (by decide)

/-- C3 (confirmed, against the spec-modelled buffer): reading any cell of
an `ErrorImage` that was never the target of a write returns the zero
error, for every coordinate including negative ones; and a write at a
coordinate strictly outside `[minX,maxX) x [minY,maxY)` leaves the buffer
completely unchanged (so it has no effect on any value ever read back). -/
theorem errorBuffer_unwritten_zero_and_discard :
    (∀ (r : Rect) (ws : List ((Int × Int) × PixelError)) (x y : Int),
      (∀ w ∈ ws, w.1 ≠ (x, y)) →
      (applyWrites (NewErrorImage r) ws).PixelErrorAt x y = PixelError.zero) ∧
    (∀ (img : ErrorImage) (x y : Int) (e : PixelError),
      img.rect.contains x y = false → img.SetPixelError x y e = img) := by
  constructor
  · intro r ws x y h
    rw [applyWrites_PixelErrorAt_ne ws _ x y h, NewErrorImage_PixelErrorAt]
  · exact fun img x y e h => SetPixelError_outside img x y e h

/-- C3 witness: a fresh 2×2 buffer written at (0,0) and at the
out-of-range (5,-5) still reads zero at the unwritten (1,1); a write at
(-3,7), strictly outside, is discarded entirely. -/
theorem errorBuffer_unwritten_zero_and_discard_witness :
    (applyWrites (NewErrorImage ⟨0, 0, 2, 2⟩)
        [((0, 0), ⟨1, 2, 3, 65535⟩), ((5, -5), ⟨4, 5, 6, 65535⟩)]).PixelErrorAt 1 1
      = PixelError.zero ∧
    (NewErrorImage ⟨0, 0, 2, 2⟩).SetPixelError (-3) 7 ⟨1, 1, 1, 1⟩
      = NewErrorImage ⟨0, 0, 2, 2⟩ :=
  ⟨errorBuffer_unwritten_zero_and_discard.1 ⟨0, 0, 2, 2⟩ _ 1 1 (by decide),
   errorBuffer_unwritten_zero_and_discard.2 _ (-3) 7 ⟨1, 1, 1, 1⟩ (by decide)⟩

/-- C4 (confirmed): `findShift` returns `-(columnIndex) + 1` for the first
cell with strictly positive weight, scanning rows top to bottom and cells
left to right (every cell before it in scan order being nonpositive), and
returns 0 when no strictly positive weight exists. -/
theorem findShift_alignment :
    (∀ (m : List (List ℚ)) (r c : Nat) (row : List ℚ) (v : ℚ),
      m.get? r = some row → row.get? c = some v → 0 < v →
      ((row.take c).all fun u => decide (u ≤ 0)) = true →
      ((m.take r).all fun rw => rw.all fun u => decide (u ≤ 0)) = true →
      findShift m = -(c : Int) + 1) ∧
    (∀ m : List (List ℚ),
      (m.all fun rw => rw.all fun u => decide (u ≤ 0)) = true → findShift m = 0) :=
  ⟨fun m r c row v h1 h2 h3 h4 h5 => findShift_some m r c row v h1 h2 h3 h4 h5,
   fun m h => findShift_none m h⟩

/-- C4 witness: the Floyd–Steinberg kernel has its first positive weight
at row 0, column 2, so its shift is `-2 + 1 = -1`; an all-zero kernel
yields 0. -/
theorem findShift_alignment_witness :
    findShift FloydSteinberg = -1 ∧ findShift [[0, 0], [0, 0]] = 0 :=
  ⟨findShift_alignment.1 FloydSteinberg 0 2 [0, 0, mkRat 7 16] (mkRat 7 16)
      rfl rfl (by decide) (by decide) (by decide),
   findShift_alignment.2 [[0, 0], [0, 0]] (by decide)⟩

/-- C5 (confirmed): if the destination passed to `Draw` is not a
palette-indexed surface, the call is a no-op: the destination is returned
unchanged, no frame handoff is attempted, and no fault occurs (the guard
returns before the error buffer is even allocated). -/
theorem draw_non_paletted_noop (dit : Dither) (dst : Dst) (rect : Rect)
    (src : Int → Int → RGB) (h : dst.isPaletted = false) :
    Dither.Draw dit dst rect src = ⟨dst, [], false⟩ := by
  unfold Dither.Draw
  rw [h]
  simp

/-- C5 witness: a concrete non-paletted destination is untouched. -/
theorem draw_non_paletted_noop_witness :
    Dither.Draw (NewDither FloydSteinberg)
        ⟨false, ⟨0, 0, 4, 4⟩, [⟨0, 0, 0⟩], fun _ _ => ⟨0, 0, 0⟩⟩ ⟨0, 0, 4, 4⟩
        (fun _ _ => ⟨7, 7, 7⟩)
      = ⟨⟨false, ⟨0, 0, 4, 4⟩, [⟨0, 0, 0⟩], fun _ _ => ⟨0, 0, 0⟩⟩, [], false⟩ :=
  draw_non_paletted_noop _ _ _ _ rfl

/-- C6 counterexample: the original claim is false for the destination
half.  A `Draw` call on a non-palette-indexed destination is NOT surfaced
as an explicit failure: it silently does nothing (destination unchanged,
no frames, no fault flag). -/
theorem C6_counterexample :
    Dither.Draw (NewDither FloydSteinberg)
        ⟨false, ⟨0, 0, 1, 1⟩, [], fun _ _ => ⟨0, 0, 0⟩⟩ ⟨0, 0, 1, 1⟩
        (fun _ _ => ⟨0, 0, 0⟩)
      = ⟨⟨false, ⟨0, 0, 1, 1⟩, [], fun _ _ => ⟨0, 0, 0⟩⟩, [], false⟩ :=
  Draw_non_paletted _ _ _ _ rfl

/-- C6 (amended): an empty palette passed to the resolver is surfaced as
an explicit failure (the `pal[index]` access panics, modelled by `none`),
but a non-palette-indexed destination passed to `Draw` is NOT rejected —
the call silently returns without doing anything. -/
theorem contract_violation_behavior :
    (∀ err pix : RGB, findColor err pix [] = none) ∧
    (∀ (dit : Dither) (dst : Dst) (rect : Rect) (src : Int → Int → RGB),
      dst.isPaletted = false → Dither.Draw dit dst rect src = ⟨dst, [], false⟩) :=
  ⟨fun _ _ => rfl, fun dit dst rect src h => Draw_non_paletted dit dst rect src h⟩

/-- C6 witness: both behaviors at concrete inputs. -/
theorem contract_violation_behavior_witness :
    findColor ⟨1, 2, 3⟩ ⟨4, 5, 6⟩ [] = none ∧
    Dither.Draw (NewDither []) ⟨false, ⟨0, 0, 1, 1⟩, [⟨9, 9, 9⟩], fun _ _ => ⟨0, 0, 0⟩⟩
        ⟨0, 0, 1, 1⟩ (fun _ _ => ⟨0, 0, 0⟩)
      = ⟨⟨false, ⟨0, 0, 1, 1⟩, [⟨9, 9, 9⟩], fun _ _ => ⟨0, 0, 0⟩⟩, [], false⟩ :=
  ⟨contract_violation_behavior.1 ⟨1, 2, 3⟩ ⟨4, 5, 6⟩,
   contract_violation_behavior.2 _ _ _ _ rfl⟩

/-- C7 counterexample: the original claim is false.  On a 2×2 rectangle
(4 pixels), `frameCount = 4 ≥ 4` gives stride 1 and a frame IS emitted at
pixel (1,1); `frameCount = 5 > 4` gives stride 0 and the call faults
(modulo by zero) at pixel (1,1). -/
theorem C7_counterexample :
    ((4 : Int) ≥ (⟨0, 0, 2, 2⟩ : Rect).Dx * (⟨0, 0, 2, 2⟩ : Rect).Dy ∧
      (Dither.Draw ⟨[[0]], 4⟩ ⟨true, ⟨0, 0, 2, 2⟩, [⟨0, 0, 0⟩], fun _ _ => ⟨0, 0, 0⟩⟩
        ⟨0, 0, 2, 2⟩ (fun _ _ => ⟨0, 0, 0⟩)).frames ≠ []) ∧
    ((5 : Int) ≥ (⟨0, 0, 2, 2⟩ : Rect).Dx * (⟨0, 0, 2, 2⟩ : Rect).Dy ∧
      (Dither.Draw ⟨[[0]], 5⟩ ⟨true, ⟨0, 0, 2, 2⟩, [⟨0, 0, 0⟩], fun _ _ => ⟨0, 0, 0⟩⟩
        ⟨0, 0, 2, 2⟩ (fun _ _ => ⟨0, 0, 0⟩)).faulted = true) := by
  constructor
  · refine ⟨by decide, ?_⟩
    rw [Draw_eq_fold _ _ _ _ rfl (by decide)]
    dsimp only
    rw [(foldl_ditherStep_filter _ _ _ _ _ _ _ _ (by decide) (by decide) rfl).1]
    decide
  · refine ⟨by decide, ?_⟩
    rw [Draw_eq_fold _ _ _ _ rfl (by decide)]
    dsimp only
    rw [show frameStride ⟨0, 0, 2, 2⟩ 5 = 0 from by decide]
    rw [(foldl_ditherStep_stride_zero _ _ _ _ _ _ _ (by decide) rfl).2]
    decide

/-- C7 (amended): `Draw` computes the frame pixel stride as
`(Dx * Dy) / frameCount` by integer division.  When `frameCount` exceeds
the pixel count the stride is 0: no frame is ever emitted, and the call
faults (division by zero in the emission test) exactly when the scan
reaches a pixel with both coordinates nonzero.  When `frameCount` equals
the pixel count the stride is 1 and a frame is emitted at every scanned
pixel with both coordinates nonzero. -/
theorem draw_frame_stride_degenerate (dit : Dither) (dst : Dst) (rect : Rect)
    (src : Int → Int → RGB) (hp : dst.isPaletted = true) (hpal : dst.palette ≠ [])
    (hn : dit.nbFrames ≠ 0) :
    (frameStride rect dit.nbFrames = rect.Dx * rect.Dy / (dit.nbFrames : Int)) ∧
    ((rect.Dx * rect.Dy < (dit.nbFrames : Int) ∧ 0 ≤ rect.Dx * rect.Dy) →
      (Dither.Draw dit dst rect src).frames = [] ∧
      ((Dither.Draw dit dst rect src).faulted = true ↔
        ∃ p ∈ scanList rect, p.2 ≠ 0 ∧ p.1 ≠ 0)) ∧
    (((dit.nbFrames : Int) = rect.Dx * rect.Dy) →
      (Dither.Draw dit dst rect src).frames
        = (scanList rect).filter (fun p => decide (p.2 ≠ 0) && decide (p.1 ≠ 0)) ∧
      (Dither.Draw dit dst rect src).faulted = false) := by
  refine ⟨rfl, ?_, ?_⟩
  · intro ⟨hlt, hnn⟩
    have hs : frameStride rect dit.nbFrames = 0 := Int.ediv_eq_zero_of_lt hnn hlt
    rw [Draw_eq_fold dit dst rect src hp hn]
    dsimp only
    rw [hs]
    exact foldl_ditherStep_stride_zero _ _ _ _ _ _ _ hpal rfl
  · intro heq
    have hs : frameStride rect dit.nbFrames = 1 := by
      unfold frameStride
      rw [← heq]
      exact Int.ediv_self (by exact_mod_cast hn)
    rw [Draw_eq_fold dit dst rect src hp hn]
    dsimp only
    rw [hs]
    have hmain := foldl_ditherStep_filter dst.palette dit.Matrix (findShift dit.Matrix)
      rect.Dy 1 src (scanList rect) ⟨dst, NewErrorImage rect, [], false⟩ hpal
      (by omega) rfl
    refine ⟨?_, hmain.2⟩
    rw [hmain.1]
    dsimp only
    rw [List.nil_append]
    apply List.filter_congr
    intro p hp'
    unfold emitCond
    rw [Int.emod_one]
    simp

/-- C7 witness: on the 2×2 rectangle with `frameCount = 4` (equal to the
pixel count) the emitted frames are exactly the interior pixels. -/
theorem draw_frame_stride_degenerate_witness :
    ((4 : Int) = (⟨0, 0, 2, 2⟩ : Rect).Dx * (⟨0, 0, 2, 2⟩ : Rect).Dy) ∧
    (Dither.Draw ⟨[[0]], 4⟩ ⟨true, ⟨0, 0, 2, 2⟩, [⟨0, 0, 0⟩], fun _ _ => ⟨0, 0, 0⟩⟩
        ⟨0, 0, 2, 2⟩ (fun _ _ => ⟨0, 0, 0⟩)).frames
      = (scanList ⟨0, 0, 2, 2⟩).filter (fun p => decide (p.2 ≠ 0) && decide (p.1 ≠ 0)) :=
  ⟨by decide,
   ((draw_frame_stride_degenerate ⟨[[0]], 4⟩
      ⟨true, ⟨0, 0, 2, 2⟩, [⟨0, 0, 0⟩], fun _ _ => ⟨0, 0, 0⟩⟩ ⟨0, 0, 2, 2⟩
      (fun _ _ => ⟨0, 0, 0⟩) rfl (by decide) (by decide)).2.2 (by decide)).1⟩

/-- C8 counterexample: the original claim is false.  With `frameCount = 1`
(an engine built by `NewDither`) on the offset rectangle `[2,4) x [2,4)`
(stride 4, `Dy = 2`), pixel (2,3) has both coordinates nonzero and
`3*2 + 2 = 8 ≡ 0 (mod 4)`, so a frame handoff is attempted. -/
theorem C8_counterexample :
    (NewDither [[0]]).nbFrames = 1 ∧
    (Dither.Draw (NewDither [[0]]) ⟨true, ⟨2, 2, 4, 4⟩, [⟨0, 0, 0⟩], fun _ _ => ⟨0, 0, 0⟩⟩
      ⟨2, 2, 4, 4⟩ (fun _ _ => ⟨0, 0, 0⟩)).frames = [(2, 3)] := by
  refine ⟨rfl, ?_⟩
  rw [Draw_eq_fold _ _ _ _ rfl (by decide)]
  dsimp only
  rw [(foldl_ditherStep_filter _ _ _ _ _ _ _ _ (by decide) (by decide) rfl).1]
  decide

/-- C8 (amended): a `Draw` call with `frameCount = 1` performs no frame
handoff provided the rectangle is anchored at the origin
(`rect.Min = (0,0)`, the usual case); for offset rectangles a handoff can
occur (see the counterexample). -/
theorem draw_single_frame_origin_no_emission (dit : Dither) (dst : Dst) (rect : Rect)
    (src : Int → Int → RGB) (h1 : dit.nbFrames = 1) (hx : rect.minX = 0)
    (hy : rect.minY = 0) :
    (Dither.Draw dit dst rect src).frames = [] := by
  by_cases hp : dst.isPaletted = true
  · rw [Draw_eq_fold dit dst rect src hp (by omega)]
    dsimp only
    exact foldl_ditherStep_no_emit _ _ _ _ _ _ _ _ (by
      intro p hp'
      rw [mem_scanList] at hp'
      have hDy : rect.Dy = rect.maxY := by
        unfold Rect.Dy
        omega
      have hs : frameStride rect dit.nbFrames = rect.maxX * rect.maxY := by
        rw [h1]
        unfold frameStride Rect.Dx Rect.Dy
        rw [hx, hy]
        simp
      rw [hDy, hs]
      exact emitCond_origin rect.maxX rect.maxY p.1 p.2 (by omega) (by omega)
        (by omega) (by omega))
  · have hp' : dst.isPaletted = false := by
      revert hp
      cases dst.isPaletted <;> simp
    rw [Draw_non_paletted dit dst rect src hp']

/-- C8 witness: no handoff on an origin-anchored 3×3 draw with
`frameCount = 1`. -/
theorem draw_single_frame_origin_no_emission_witness :
    (Dither.Draw (NewDither FloydSteinberg)
      ⟨true, ⟨0, 0, 3, 3⟩, [⟨0, 0, 0⟩, ⟨255, 255, 255⟩], fun _ _ => ⟨0, 0, 0⟩⟩
      ⟨0, 0, 3, 3⟩ (fun _ _ => ⟨200, 100, 50⟩)).frames = [] :=
  draw_single_frame_origin_no_emission _ _ _ _ rfl rfl rfl

/-- C9 counterexample: the original claim is false.  With `frameCount = 4`
on the 8×8 origin rectangle (stride 16), the emission condition
`(y*8 + x) % 16 = 0` with `x, y` nonzero forces `8 ∣ x` with `1 ≤ x ≤ 7`,
which is impossible: the number of emitted frames is 0, not 3 — even with
the genuine Floyd–Steinberg kernel and a two-color palette. -/
theorem C9_counterexample :
    (Dither.Draw ⟨FloydSteinberg, 4⟩
      ⟨true, ⟨0, 0, 8, 8⟩, [⟨0, 0, 0⟩, ⟨255, 255, 255⟩], fun _ _ => ⟨0, 0, 0⟩⟩
      ⟨0, 0, 8, 8⟩ (fun _ _ => ⟨200, 100, 50⟩)).frames.length ≠ 3 := by
  rw [Draw_eq_fold _ _ _ _ rfl (by decide)]
  dsimp only
  rw [(foldl_ditherStep_filter _ _ _ _ _ _ _ _ (by decide) (by decide) rfl).1]
  decide

/-- C9 (amended): with `frameCount = 4` on an 8×8 origin image the frame
pixel stride is 16, emission would occur exactly at pixels with both
coordinates nonzero and `(y*8 + x) % 16 = 0`, and no pixel of the
rectangle satisfies this, so `Draw` completes without fault and emits
zero intermediate frames. -/
theorem draw_8x8_four_frames (matrix : List (List ℚ)) (dst : Dst)
    (src : Int → Int → RGB) (hp : dst.isPaletted = true) (hpal : dst.palette ≠ []) :
    frameStride ⟨0, 0, 8, 8⟩ 4 = 16 ∧
    (Dither.Draw ⟨matrix, 4⟩ dst ⟨0, 0, 8, 8⟩ src).frames = [] ∧
    (Dither.Draw ⟨matrix, 4⟩ dst ⟨0, 0, 8, 8⟩ src).faulted = false := by
  refine ⟨by decide, ?_⟩
  rw [Draw_eq_fold _ _ _ _ hp (by exact (by decide : (4 : Nat) ≠ 0))]
  dsimp only
  have hmain := foldl_ditherStep_filter dst.palette matrix (findShift matrix)
    (Rect.Dy ⟨0, 0, 8, 8⟩) (frameStride ⟨0, 0, 8, 8⟩ 4) src (scanList ⟨0, 0, 8, 8⟩)
    ⟨dst, NewErrorImage ⟨0, 0, 8, 8⟩, [], false⟩ hpal (by decide) rfl
  refine ⟨?_, hmain.2⟩
  rw [hmain.1]
  dsimp only
  rw [List.nil_append]
  decide

/-- C9 witness: the amended claim at a concrete engine. -/
theorem draw_8x8_four_frames_witness :
    frameStride ⟨0, 0, 8, 8⟩ 4 = 16 ∧
    (Dither.Draw ⟨FloydSteinberg, 4⟩
      ⟨true, ⟨0, 0, 8, 8⟩, [⟨0, 0, 0⟩], fun _ _ => ⟨0, 0, 0⟩⟩ ⟨0, 0, 8, 8⟩
      (fun _ _ => ⟨1, 2, 3⟩)).frames = [] ∧
    (Dither.Draw ⟨FloydSteinberg, 4⟩
      ⟨true, ⟨0, 0, 8, 8⟩, [⟨0, 0, 0⟩], fun _ _ => ⟨0, 0, 0⟩⟩ ⟨0, 0, 8, 8⟩
      (fun _ _ => ⟨1, 2, 3⟩)).faulted = false :=
  draw_8x8_four_frames FloydSteinberg _ _ rfl (by decide)

/-- C10 (confirmed): `Draw` writes to the destination only at coordinates
inside the rectangle: every destination pixel outside
`[minX,maxX) x [minY,maxY)` is unchanged by the call. -/
theorem draw_writes_within_rect (dit : Dither) (dst : Dst) (rect : Rect)
    (src : Int → Int → RGB) (x y : Int) (hp : dst.isPaletted = true)
    (h : ¬(rect.minX ≤ x ∧ x < rect.maxX ∧ rect.minY ≤ y ∧ y < rect.maxY)) :
    (Dither.Draw dit dst rect src).dst.pix x y = dst.pix x y := by
  by_cases hn : dit.nbFrames = 0
  · unfold Dither.Draw
    rw [hp, hn]
    simp
  · rw [Draw_eq_fold dit dst rect src hp hn]
    dsimp only
    exact foldl_ditherStep_pix_ne _ _ _ _ _ _ _ _ (x, y) (fun p hp' => by
      rw [mem_scanList] at hp'
      intro hc
      rw [hc] at hp'
      exact h ⟨hp'.1, hp'.2.1, hp'.2.2.1, hp'.2.2.2⟩)

/-- C10 witness: a pixel outside the drawn rectangle keeps its prior
value. -/
theorem draw_writes_within_rect_witness :
    (Dither.Draw (NewDither FloydSteinberg)
      ⟨true, ⟨0, 0, 2, 2⟩, [⟨0, 0, 0⟩], fun _ _ => ⟨9, 9, 9⟩⟩ ⟨0, 0, 2, 2⟩
      (fun _ _ => ⟨5, 5, 5⟩)).dst.pix 5 7 = ⟨9, 9, 9⟩ :=
  draw_writes_within_rect _ _ _ _ 5 7 rfl (by decide)

